import Mathlib

/-!
Verification of the tcpserve repository (a small Go TCP session server)
against its natural-language specification.

The Go sources are shallowly embedded:
* byte slices become `List Nat`;
* a Go `Codec func([]byte)` (an in-place buffer transform) becomes a
  function `Bytes → Bytes` giving the buffer contents after the call; a
  nil Go function value is `none` of `Option Codec`, and calling a nil
  function (a Go runtime panic) is `none` of an `Option` result;
* Go slice expressions `buf[lo:hi]` become `goSlice`, which returns `none`
  exactly when the Go expression would panic with a slice-bounds error;
* the sequential control flow of `Server.Start` (server.go: the accept
  loop and, inline inside it, the per-connection read loop) becomes a
  trace-producing function `serverRun` over scripts of connection reads;
* the `sync.WaitGroup` bookkeeping of `Start`/`Stop` becomes lists of
  counter operations whose integer sum is analysed (Go panics when a
  WaitGroup counter goes negative).
-/

/-- A byte slice, as the list of its byte values. -/
abbrev Bytes := List Nat

/-- server.go / session.go: `type Codec func([]byte)`.  The Go codec mutates
its argument buffer in place; we model it by the function sending the buffer
contents before the call to the contents after the call.  A Go nil `Codec`
value is represented as `none : Option Codec`. -/
abbrev Codec := Bytes → Bytes

/-- Calling a possibly-nil Go function value: calling nil panics (`none`). -/
def callCodec (c : Option Codec) (b : Bytes) : Option Bytes :=
  match c with
  | none => none
  | some f => some (f b)

/-- The Go slice expression `buf[lo:hi]`: defined when `lo ≤ hi ≤ len buf`
(for a slice made by `make([]byte, n)`, capacity equals length), and a
runtime panic (`none`) otherwise. -/
def goSlice (buf : Bytes) (lo hi : Nat) : Option Bytes :=
  if lo ≤ hi ∧ hi ≤ buf.length then some ((buf.take hi).drop lo) else none

/-- server.go line 160: `buf := make([]byte, 2048)` — the scratch read buffer
size used by the read loop. -/
def readBufSize : Nat := 2048

/-- The header window stripped from each frame (`data := buf[4:n]`). -/
def headerLen : Nat := 4

/-- Possible outcomes of one successful-read iteration of the per-connection
read loop (server.go lines 159–169).  `frameError` is the outcome the spec
mandates for a read shorter than the header window; the code never produces
it. -/
inductive FrameOutcome
  | delivered (payload : Bytes)
  | panicSliceBounds
  | panicNilCodec
  | frameError
deriving DecidableEq, Repr

/-- server.go lines 166–168, the body run after a successful `conn.Read`
returning `n` bytes into `buf`:
`data := buf[4:n]; s.decrypt(data); s.onPacket(conn, data)`.
There is no bound check on `n`: the slice is taken directly, and the
decrypter is called whether or not it is nil. -/
def readLoopBody (decrypt : Option Codec) (buf : Bytes) (n : Nat) : FrameOutcome :=
  match goSlice buf headerLen n with
  | none => .panicSliceBounds
  | some data =>
    match decrypt with
    | none => .panicNilCodec
    | some f => .delivered (f data)

/-- Modelled from the spec: the read-loop body §4.4 mandates — "implementers
must bound-check that at least the header length was read before slicing,
returning a `FrameError` otherwise". -/
def readLoopBodySpec (decrypt : Option Codec) (buf : Bytes) (n : Nat) : FrameOutcome :=
  if n < headerLen then .frameError
  else
    match goSlice buf headerLen n with
    | none => .panicSliceBounds
    | some data =>
      match decrypt with
      | none => .panicNilCodec
      | some f => .delivered (f data)

/-- server.go: the `Server` struct fields the claims depend on.  Go zero
values: `encrypt`/`decrypt` are nil (`none`) unless an option sets them.
`connections` is the registry `map[int]net.Conn`, as an association list
from ids to connection handles. -/
structure Server where
  connections : List (Nat × Nat)
  isAlive : Bool
  countConn : Nat
  port : Int
  encrypt : Option Codec
  decrypt : Option Codec

/-- server.go: `type ServerOption func(*Server)`. -/
abbrev ServerOption := Server → Server

/-- server.go lines 44–59: `NewServer` builds the server with `port = 8484`,
`isAlive = false`, an empty `connections` map, and applies the options in
order.  The codec fields are left at their Go zero value, nil. -/
def NewServer (options : List ServerOption) : Server :=
  options.foldl (fun s option => option s)
    { port := 8484
      isAlive := false
      connections := []
      countConn := 0
      encrypt := none
      decrypt := none }

/-- server.go: `WithPort`. -/
def WithPort (port : Int) : ServerOption :=
  fun s => { s with port := port }

/-- server.go: `WithEncrypter` stores the given (possibly nil) codec. -/
def WithEncrypter (encrypter : Option Codec) : ServerOption :=
  fun s => { s with encrypt := encrypter }

/-- server.go: `WithDecrypter` stores the given (possibly nil) codec. -/
def WithDecrypter (decrypter : Option Codec) : ServerOption :=
  fun s => { s with decrypt := decrypter }

/-- session.go / src/unnamed/part_000: the `Session` struct.  `conn` is the
transport handle (`none` when the Go field is nil).  The codec fields hold
Go function values, nil as `none`. -/
structure Session where
  id : Nat
  conn : Option Nat
  encrypt : Option Codec
  decrypt : Option Codec

/-- session.go lines 17–23 (identical in part_000): `NewSession(id, conn)`
initialises both codecs to the no-op function `func([]byte) {}`, which
leaves the buffer unchanged — the identity transform on buffer contents. -/
def NewSession (id : Nat) (conn : Option Nat) : Session :=
  { id := id
    conn := conn
    encrypt := some (fun b => b)
    decrypt := some (fun b => b) }

/-- session.go lines 30–32: `SetEncrypter` overwrites the encrypt field. -/
def SetEncrypter (s : Session) (encrypter : Option Codec) : Session :=
  { s with encrypt := encrypter }

/-- session.go lines 35–37: `SetDecrypter` overwrites the decrypt field. -/
def SetDecrypter (s : Session) (decrypter : Option Codec) : Session :=
  { s with decrypt := decrypter }

/-- session.go line 26: `Id()` returns the id and leaves the session as is. -/
def SessionIdOp (s : Session) : Nat × Session :=
  (s.id, s)

namespace part000

/-- src/unnamed/part_000 lines 40–44: `Write` runs `s.encrypt(data)` (in
place) and then `s.conn.Write(data)`.  The first component is the byte
sequence put on the wire (`none` when the encrypt field is nil, a Go nil
function call panic); the second is the session afterwards — `Write`
assigns to no session field. -/
def SessionWrite (s : Session) (data : Bytes) : Option Bytes × Session :=
  (callCodec s.encrypt data, s)

/-- src/unnamed/part_000 lines 47–49: `WriteRaw` writes `data` to the
transport unmodified, bypassing the codec. -/
def SessionWriteRaw (s : Session) (data : Bytes) : Bytes × Session :=
  (data, s)

/-- src/unnamed/part_000 lines 51–53: `Read` is a passthrough to
`s.conn.Read`; `incoming` stands for the bytes the transport delivers, and
they are returned untransformed. -/
def SessionRead (s : Session) (incoming : Bytes) : Bytes × Session :=
  (incoming, s)

end part000

namespace sessiongo

/-- src/session.go lines 39–41: `Write` is `return s.conn.Write(data)` —
the payload goes to the wire as given; the bound codec is not invoked. -/
def SessionWrite (s : Session) (data : Bytes) : Bytes × Session :=
  (data, s)

end sessiongo

namespace part001

/-- src/unnamed/part_001: `type Codec func([]byte) []byte` has the same
model type as the in-place variant. -/
abbrev SessionOption := Session → Session

/-- src/unnamed/part_001 lines 19–34: `NewSession(options...)` starts from
the zero-value session, sets both codecs to the `dummy` identity function
`func(b []byte) []byte { return b }`, and then applies the options. -/
def NewSession (options : List SessionOption) : Session :=
  options.foldl (fun s option => option s)
    { id := 0
      conn := none
      encrypt := some (fun b => b)
      decrypt := some (fun b => b) }

/-- src/unnamed/part_001: `WithId`. -/
def WithId (id : Nat) : SessionOption :=
  fun s => { s with id := id }

/-- src/unnamed/part_001: `WithEncrypter`. -/
def WithEncrypter (encrypter : Option Codec) : SessionOption :=
  fun s => { s with encrypt := encrypter }

/-- src/unnamed/part_001: `WithDecrypter`. -/
def WithDecrypter (decrypter : Option Codec) : SessionOption :=
  fun s => { s with decrypt := decrypter }

end part001

/-- The non-mutating session operations of session.go / part_000 (everything
except `SetEncrypter`/`SetDecrypter`). -/
inductive SessOp
  | write (data : Bytes)
  | writeRaw (data : Bytes)
  | read (incoming : Bytes)
  | getId

/-- Running one non-mutating operation and keeping the resulting session
state (each method has a pointer receiver but assigns to no field). -/
def sessionStep (s : Session) : SessOp → Session
  | .write data => (part000.SessionWrite s data).2
  | .writeRaw data => (part000.SessionWriteRaw s data).2
  | .read incoming => (part000.SessionRead s incoming).2
  | .getId => (SessionIdOp s).2

/-- Running a sequence of non-mutating session operations. -/
def runSessOps (s : Session) : List SessOp → Session
  | [] => s
  | op :: rest => runSessOps (sessionStep s op) rest

/-- Observable events of `Server.Start` (server.go lines 139–175):
`connected k` is the `s.onConnected` call for the connection with id `k`
(line 155), `packet k p` is an `s.onPacket(conn, p)` call with the
post-decrypt payload (line 168), and `closedConn k` is the cleanup
`conn.Close(); delete(s.connections, k)` (lines 172–173). -/
inductive Event
  | connected (k : Nat)
  | packet (k : Nat) (payload : Bytes)
  | closedConn (k : Nat)
deriving DecidableEq, Repr

/-- The connection id an event belongs to. -/
def connOf : Event → Nat
  | .connected k => k
  | .packet k _ => k
  | .closedConn k => k

/-- One connection's script: the successful reads in order, each a pair of
the 2048-byte buffer contents after the read and the byte count `n` the
read returned; after the listed reads, `conn.Read` returns an error and the
inner loop breaks (server.go lines 162–165). -/
abbrev ReadScript := List (Bytes × Nat)

/-- The inner read loop (server.go lines 159–169) on one connection:
produces the `packet` events in order, together with a flag that is `true`
when an iteration panicked (short-read slice bounds, or a nil decrypter) —
an unrecovered Go panic, which aborts the whole process, so no further
events follow it. -/
def runReads (decrypt : Option Codec) (k : Nat) : ReadScript → List Event × Bool
  | [] => ([], false)
  | (buf, n) :: rest =>
    match goSlice buf headerLen n with
    | none => ([], true)
    | some data =>
      match decrypt with
      | none => ([], true)
      | some f =>
        let r := runReads decrypt k rest
        (Event.packet k (f data) :: r.1, r.2)

/-- The accept loop of `Server.Start` (server.go lines 139–175) over a queue
of connection scripts, starting from counter value `c` (`s.countConn`).
There is no `go` statement in `Start`: each accepted connection's read loop
runs inline, to completion, before the next `Accept`.  Per accepted
connection the code assigns `connId := s.countConn`, increments the
counter, calls `onConnected`, runs the read loop, then closes and removes
the connection — unless the read loop panicked, in which case the process
dies and no further event occurs. -/
def serverRun (decrypt : Option Codec) (c : Nat) : List ReadScript → List Event
  | [] => []
  | reads :: rest =>
    let r := runReads decrypt c reads
    if r.2 then Event.connected c :: r.1
    else Event.connected c :: (r.1 ++ (Event.closedConn c :: serverRun decrypt (c + 1) rest))

/-- How many times `onConnected` fired for connection `k` in a trace. -/
def countConnectedEv (k : Nat) : List Event → Nat
  | [] => 0
  | .connected j :: t => (if j = k then 1 else 0) + countConnectedEv k t
  | _ :: t => countConnectedEv k t

/-- The session ids in order of acceptance: the ids of the `connected`
events of a trace. -/
def connectedIds (t : List Event) : List Nat :=
  t.filterMap fun e =>
    match e with
    | .connected k => some k
    | _ => none

/-- Index of the first occurrence of an event in a trace (trace length when
absent). -/
def eventIdx (e : Event) (t : List Event) : Nat :=
  t.findIdx fun x => decide (x = e)

/-- Outcome of one accept-loop iteration (server.go lines 140–147). -/
inductive AcceptOutcome
  | handled (conn : Nat)
  | panicNilClose
  | loggedAndContinued
deriving DecidableEq, Repr

/-- Calling `Close()` on a possibly-nil `net.Conn` interface value: a method
call on nil panics (`none`). -/
def connClose (conn : Option Nat) : Option Unit :=
  match conn with
  | none => none
  | some _ => some ()

/-- server.go lines 143–147, the `err != nil` branch of an accept: the code
runs `conn.Close()`, then logs and continues.  `conn` is whatever `Accept`
returned next to the error. -/
def acceptErrBranch (conn : Option Nat) : AcceptOutcome :=
  match connClose conn with
  | none => .panicNilClose
  | some _ => .loggedAndContinued

/-- One accept-loop iteration on the result of `s.ln.Accept()`.  Go's
`Accept` returns `(nil, err)` on failure, so the error branch runs with a
nil connection value. -/
def acceptIter (res : Except String Nat) : AcceptOutcome :=
  match res with
  | .ok conn => .handled conn
  | .error _ => acceptErrBranch none

/-- One `sync.WaitGroup` counter operation on `s.wg`. -/
inductive WgOp
  | add (n : Nat)
  | done
deriving DecidableEq, Repr

/-- The signed effect of a WaitGroup operation on the counter. -/
def wgDelta : WgOp → Int
  | .add n => (n : Int)
  | .done => -1

/-- The net effect of a sequence of WaitGroup operations.  Go's WaitGroup
panics the moment its counter goes negative, so a sequence with a negative
total panics in every interleaving. -/
def wgTotal (ops : List WgOp) : Int :=
  (ops.map wgDelta).sum

/-- server.go line 118: `s.wg.Add(1)` before `net.Listen`. -/
def startPrologueWg : List WgOp := [.add 1]

/-- server.go line 140: `s.wg.Add(1)` at the top of each accept-loop
iteration. -/
def acceptIterWg : List WgOp := [.add 1]

/-- server.go line 174: `s.wg.Done()` in a connection's cleanup after its
read loop breaks. -/
def connCleanupWg : List WgOp := [.done]

/-- server.go lines 128–131: the deferred `s.wg.Done()` run when `Start`
exits its loop. -/
def startEpilogueWg : List WgOp := [.done]

/-- server.go lines 182–185: `Stop` runs `s.wg.Done()` once per entry of the
`connections` registry. -/
def stopWg (liveConns : Nat) : List WgOp :=
  List.replicate liveConns .done

/-- The WaitGroup operations of the shutdown scenario with one live
connection: `Start` has run its prologue and one accept-loop iteration and
sits in the connection's read loop; `Stop` closes the connection and does
its per-connection `Done`; the read loop then breaks and the connection
cleanup runs its `Done`; `Start` exits the loop and the deferred `Done`
runs. -/
def stopScenarioWg : List WgOp :=
  startPrologueWg ++ acceptIterWg ++ stopWg 1 ++ connCleanupWg ++ startEpilogueWg

/-- server.go lines 180–197: the effect of `Stop` on the `Server` fields it
writes: it clears `isAlive` and closes connections and listener, but never
deletes a registry entry — removal happens only in `Start`'s per-connection
cleanup (line 173). -/
def ServerStop (s : Server) : Server :=
  { s with isAlive := false }

/-- Modelled from the spec: `WriteToId` appears in the spec's operation list
(§6) and §4.6 but not in src/.  "look up under shared/read access; if
present, perform `Session.Write`; absent id is a silent no-op (not an
error)".  The first component lists the wire writes performed. -/
def WriteToId (registry : List (Nat × Session)) (id : Nat) (payload : Bytes) :
    List Bytes × Option String :=
  match registry.lookup id with
  | none => ([], none)
  | some s =>
    match (part000.SessionWrite s payload).1 with
    | some wire => ([wire], none)
    | none => ([], some "panic")

/-! ### Supporting lemmas about the accept-loop trace semantics -/

/-- Every event the inner read loop emits is a `packet` event of its own
connection. -/
theorem runReads_mem_packet (decrypt : Option Codec) (k : Nat) :
    ∀ (reads : ReadScript) (e : Event),
      e ∈ (runReads decrypt k reads).1 → ∃ p, e = Event.packet k p := by
  intro reads
  induction reads with
  | nil => intro e h; simp [runReads] at h
  | cons hd tl ih =>
    intro e h
    obtain ⟨buf, n⟩ := hd
    simp only [runReads] at h
    split at h
    · simp at h
    · split at h
      · simp at h
      · simp only [List.mem_cons] at h
        rcases h with h | h
        · exact ⟨_, h⟩
        · exact ih e h

/-- Every event of `serverRun` starting at counter `c` belongs to a
connection id at least `c`. -/
theorem serverRun_connOf_ge (decrypt : Option Codec) :
    ∀ (scripts : List ReadScript) (c : Nat) (e : Event),
      e ∈ serverRun decrypt c scripts → c ≤ connOf e := by
  intro scripts
  induction scripts with
  | nil => intro c e h; simp [serverRun] at h
  | cons reads rest ih =>
    intro c e h
    simp only [serverRun] at h
    split at h
    · rcases List.mem_cons.mp h with h | h
      · subst h; exact Nat.le_refl c
      · obtain ⟨p, rfl⟩ := runReads_mem_packet decrypt c reads e h
        exact Nat.le_refl c
    · rcases List.mem_cons.mp h with h | h
      · subst h; exact Nat.le_refl c
      · rcases List.mem_append.mp h with h | h
        · obtain ⟨p, rfl⟩ := runReads_mem_packet decrypt c reads e h
          exact Nat.le_refl c
        · rcases List.mem_cons.mp h with h | h
          · subst h; exact Nat.le_refl c
          · exact Nat.le_trans (Nat.le_succ c) (ih (c + 1) e h)

/-- A trace with no `connected k` event counts zero such events. -/
theorem countConnectedEv_eq_zero {k : Nat} :
    ∀ {t : List Event}, (∀ e ∈ t, e ≠ Event.connected k) → countConnectedEv k t = 0 := by
  intro t
  induction t with
  | nil => intro _; rfl
  | cons e t ih =>
    intro h
    have ht : ∀ x ∈ t, x ≠ Event.connected k := fun x hx => h x (List.mem_cons_of_mem _ hx)
    cases e with
    | connected j =>
      have hj : ¬(j = k) := fun he => h _ (List.mem_cons_self _ _) (by rw [he])
      simp [countConnectedEv, hj, ih ht]
    | packet j p => simp [countConnectedEv, ih ht]
    | closedConn j => simp [countConnectedEv, ih ht]

/-- `countConnectedEv` distributes over append. -/
theorem countConnectedEv_append (k : Nat) :
    ∀ (a b : List Event),
      countConnectedEv k (a ++ b) = countConnectedEv k a + countConnectedEv k b := by
  intro a b
  induction a with
  | nil => simp [countConnectedEv]
  | cons e t ih =>
    cases e with
    | connected j => simp [countConnectedEv, ih]; omega
    | packet j p => simp [countConnectedEv, ih]
    | closedConn j => simp [countConnectedEv, ih]

/-- A present `connected k` event counts at least once. -/
theorem countConnectedEv_pos {k : Nat} :
    ∀ {t : List Event}, Event.connected k ∈ t → 1 ≤ countConnectedEv k t := by
  intro t
  induction t with
  | nil => intro h; simp at h
  | cons e t ih =>
    intro h
    rcases List.mem_cons.mp h with h | h
    · subst h; simp [countConnectedEv]
    · have h1 := ih h
      cases e with
      | connected j =>
        simp only [countConnectedEv]
        split <;> omega
      | packet j p => simpa [countConnectedEv] using h1
      | closedConn j => simpa [countConnectedEv] using h1

/-- The inner read loop never emits a `connected` event. -/
theorem countConnectedEv_runReads (decrypt : Option Codec) (k j : Nat) (reads : ReadScript) :
    countConnectedEv k (runReads decrypt j reads).1 = 0 := by
  apply countConnectedEv_eq_zero
  intro e he
  obtain ⟨p, rfl⟩ := runReads_mem_packet decrypt j reads e he
  simp

/-- `onConnected` fires at most once per connection id over a whole run. -/
theorem serverRun_countConnected_le_one (decrypt : Option Codec) :
    ∀ (scripts : List ReadScript) (c k : Nat),
      countConnectedEv k (serverRun decrypt c scripts) ≤ 1 := by
  intro scripts
  induction scripts with
  | nil => intro c k; simp [serverRun, countConnectedEv]
  | cons reads rest ih =>
    intro c k
    simp only [serverRun]
    split
    · by_cases hck : c = k
      · simp [countConnectedEv, hck, countConnectedEv_runReads]
      · simp [countConnectedEv, hck, countConnectedEv_runReads]
    · by_cases hck : c = k
      · subst hck
        have hrest : countConnectedEv c (serverRun decrypt (c + 1) rest) = 0 := by
          apply countConnectedEv_eq_zero
          intro e he hec
          have := serverRun_connOf_ge decrypt rest (c + 1) e he
          rw [hec] at this
          simp [connOf] at this
        simp [countConnectedEv, countConnectedEv_append, countConnectedEv_runReads, hrest]
      · simp only [countConnectedEv, countConnectedEv_append, countConnectedEv_runReads, hck,
          if_false]
        simpa [countConnectedEv] using ih (c + 1) k

/-- Any `packet` event of a run is preceded in the trace by the `connected`
event of its connection: the two-element list embeds as a sublist. -/
theorem serverRun_packet_after_connected (decrypt : Option Codec) :
    ∀ (scripts : List ReadScript) (c k : Nat) (p : Bytes),
      Event.packet k p ∈ serverRun decrypt c scripts →
      [Event.connected k, Event.packet k p].Sublist (serverRun decrypt c scripts) := by
  intro scripts
  induction scripts with
  | nil => intro c k p h; simp [serverRun] at h
  | cons reads rest ih =>
    intro c k p h
    simp only [serverRun] at h ⊢
    split at h
    next hpan =>
      rw [if_pos hpan]
      rcases List.mem_cons.mp h with h | h
      · exact absurd h (by simp)
      · obtain ⟨q, hq⟩ := runReads_mem_packet decrypt c reads _ h
        obtain ⟨rfl, rfl⟩ : k = c ∧ p = q := by
          constructor <;> injection hq
        exact List.Sublist.cons₂ _ (List.singleton_sublist.mpr h)
    next hpan =>
      rw [if_neg hpan]
      rcases List.mem_cons.mp h with h | h
      · exact absurd h (by simp)
      · rcases List.mem_append.mp h with h | h
        · obtain ⟨q, hq⟩ := runReads_mem_packet decrypt c reads _ h
          obtain ⟨rfl, rfl⟩ : k = c ∧ p = q := by
            constructor <;> injection hq
          exact List.Sublist.cons₂ _
            (List.singleton_sublist.mpr (List.mem_append_left _ h))
        · rcases List.mem_cons.mp h with h | h
          · exact absurd h (by simp)
          · have hsub := ih (c + 1) k p h
            have h1 : List.Sublist (serverRun decrypt (c + 1) rest)
                (Event.closedConn c :: serverRun decrypt (c + 1) rest) :=
              List.sublist_cons_self _ _
            have h2 : List.Sublist (Event.closedConn c :: serverRun decrypt (c + 1) rest)
                ((runReads decrypt c reads).1 ++
                  (Event.closedConn c :: serverRun decrypt (c + 1) rest)) :=
              List.sublist_append_right _ _
            exact ((hsub.trans h1).trans h2).cons _

/-- A relation holding between any two members of a list holds pairwise. -/
theorem pairwiseOfMem {α : Type} {R : α → α → Prop} :
    ∀ {l : List α}, (∀ a ∈ l, ∀ b ∈ l, R a b) → l.Pairwise R := by
  intro l
  induction l with
  | nil => intro _; exact List.Pairwise.nil
  | cons x t ih =>
    intro h
    refine List.Pairwise.cons (fun b hb => ?_) (ih fun a ha b hb => ?_)
    · exact h x (List.mem_cons_self _ _) b (List.mem_cons_of_mem _ hb)
    · exact h a (List.mem_cons_of_mem _ ha) b (List.mem_cons_of_mem _ hb)

/-- Members of `connectedIds t` come from `connected` events of `t`. -/
theorem mem_connectedIds {j : Nat} {t : List Event} :
    j ∈ connectedIds t → Event.connected j ∈ t := by
  intro h
  obtain ⟨e, he, hfe⟩ := List.mem_filterMap.mp h
  cases e with
  | connected k =>
    obtain rfl : k = j := by injection hfe
    exact he
  | packet k p => simp at hfe
  | closedConn k => simp at hfe

/-- The read loop contributes nothing to `connectedIds`. -/
theorem connectedIds_runReads (decrypt : Option Codec) (j : Nat) (reads : ReadScript) :
    connectedIds (runReads decrypt j reads).1 = [] := by
  refine List.filterMap_eq_nil_iff.mpr fun e he => ?_
  obtain ⟨p, rfl⟩ := runReads_mem_packet decrypt j reads e he
  rfl

/-- `connectedIds` records the id of a leading `connected` event. -/
theorem connectedIds_cons_connected (k : Nat) (t : List Event) :
    connectedIds (Event.connected k :: t) = k :: connectedIds t := rfl

/-- A leading `closedConn` event adds nothing to `connectedIds`. -/
theorem connectedIds_cons_closed (k : Nat) (t : List Event) :
    connectedIds (Event.closedConn k :: t) = connectedIds t := rfl

/-- `connectedIds` distributes over append. -/
theorem connectedIds_append (a b : List Event) :
    connectedIds (a ++ b) = connectedIds a ++ connectedIds b :=
  List.filterMap_append a b _

/-- The ids of the `connected` events of a run are strictly increasing in
trace order. -/
theorem serverRun_connectedIds_pairwise (decrypt : Option Codec) :
    ∀ (scripts : List ReadScript) (c : Nat),
      (connectedIds (serverRun decrypt c scripts)).Pairwise (· < ·) := by
  intro scripts
  induction scripts with
  | nil => intro c; simp [serverRun, connectedIds]
  | cons reads rest ih =>
    intro c
    simp only [serverRun]
    split
    · rw [connectedIds_cons_connected, connectedIds_runReads]
      exact List.Pairwise.cons (by simp) List.Pairwise.nil
    · rw [connectedIds_cons_connected, connectedIds_append, connectedIds_runReads,
        List.nil_append, connectedIds_cons_closed]
      refine List.Pairwise.cons (fun j hj => ?_) (ih (c + 1))
      have hmem := mem_connectedIds hj
      have := serverRun_connOf_ge decrypt rest (c + 1) _ hmem
      simpa [connOf] using this

/-- A read shorter than the lower slice bound makes the Go slice expression
panic. -/
theorem goSlice_none_of_lt (buf : Bytes) (lo n : Nat) (h : n < lo) :
    goSlice buf lo n = none := by
  unfold goSlice
  rw [if_neg]
  rintro ⟨h1, -⟩
  omega

/-- Evaluating the Go slice expression on a constant buffer without
unfolding the buffer element by element. -/
theorem goSlice_replicate (L a lo n : Nat) (h1 : lo ≤ n) (h2 : n ≤ L) :
    goSlice (List.replicate L a) lo n = some (List.replicate (n - lo) a) := by
  unfold goSlice
  rw [if_pos ⟨h1, by simpa using h2⟩, List.take_replicate, List.drop_replicate,
    Nat.min_eq_left h2]

/-- The read loop on an exhausted script: no events, no panic. -/
theorem runReads_nil (dec : Option Codec) (k : Nat) : runReads dec k [] = ([], false) := rfl

/-- The accept loop on an empty accept queue produces no events. -/
theorem serverRun_nil (dec : Option Codec) (c : Nat) : serverRun dec c [] = [] := rfl

/-- One successful read-loop iteration with an in-range byte count: the
sliced-and-decrypted payload is handed to `onPacket`. -/
theorem runReads_cons_some (f : Codec) (k : Nat) (buf : Bytes) (n : Nat)
    (rest : ReadScript) (data : Bytes) (hsl : goSlice buf headerLen n = some data) :
    runReads (some f) k ((buf, n) :: rest) =
      (Event.packet k (f data) :: (runReads (some f) k rest).1,
       (runReads (some f) k rest).2) := by
  simp only [runReads, hsl]

/-- One panic-free connection in the accept queue: its whole event block
precedes everything produced for the rest of the queue. -/
theorem serverRun_cons_ok (dec : Option Codec) (c : Nat) (reads : ReadScript)
    (rest : List ReadScript) (evs : List Event) (h : runReads dec c reads = (evs, false)) :
    serverRun dec c (reads :: rest) =
      Event.connected c :: (evs ++ (Event.closedConn c :: serverRun dec (c + 1) rest)) := by
  simp only [serverRun, h]
  rfl

/-! ### Claim theorems -/

/-- Claim C1 (code_bug evaluation): the read loop does NOT bound-check `n`
against the 4-byte header before slicing.  On a successful read of `n = 2`
bytes the code evaluates `buf[4:2]`, an out-of-range slice that panics,
while the spec-mandated body returns a `FrameError`; and no input at all
makes the code produce a `FrameError`. -/
theorem C1_short_read_panics_not_frameError :
    readLoopBody (some fun b => b) (List.replicate readBufSize 0) 2 =
      FrameOutcome.panicSliceBounds ∧
    readLoopBodySpec (some fun b => b) (List.replicate readBufSize 0) 2 =
      FrameOutcome.frameError ∧
    ∀ (decrypt : Option Codec) (buf : Bytes) (n : Nat),
      readLoopBody decrypt buf n ≠ FrameOutcome.frameError := by
  refine ⟨?_, ?_, ?_⟩
  · have hsl : goSlice (List.replicate readBufSize 0) headerLen 2 = none :=
      goSlice_none_of_lt _ _ _ (by decide)
    simp [readLoopBody, hsl]
  · simp [readLoopBodySpec, headerLen]
  · intro decrypt buf n
    unfold readLoopBody
    split
    · simp
    · split <;> simp

/-- Claim C2 (counterexample): with two connections pending, the second
connection's `onConnected` event occurs strictly after the first
connection's read loop has fully terminated (its `closedConn` event) — the
accept loop and the read loops are one sequential task, not parallel
tasks. -/
theorem C2_sequential_counterexample :
    serverRun (some fun b => b) 0 [[(List.replicate 2048 1, 6)], [(List.replicate 2048 2, 8)]] =
      [Event.connected 0, Event.packet 0 [1, 1], Event.closedConn 0,
       Event.connected 1, Event.packet 1 [2, 2, 2, 2], Event.closedConn 1] ∧
    eventIdx (Event.closedConn 0)
        [Event.connected 0, Event.packet 0 [1, 1], Event.closedConn 0,
         Event.connected 1, Event.packet 1 [2, 2, 2, 2], Event.closedConn 1] <
      eventIdx (Event.connected 1)
        [Event.connected 0, Event.packet 0 [1, 1], Event.closedConn 0,
         Event.connected 1, Event.packet 1 [2, 2, 2, 2], Event.closedConn 1] := by
  have e1 : goSlice (List.replicate 2048 1) headerLen 6 = some [1, 1] := by
    rw [goSlice_replicate 2048 1 headerLen 6 (by decide) (by decide)]
    rfl
  have e2 : goSlice (List.replicate 2048 2) headerLen 8 = some [2, 2, 2, 2] := by
    rw [goSlice_replicate 2048 2 headerLen 8 (by decide) (by decide)]
    rfl
  have r1 : runReads (some fun b => b) 0 [(List.replicate 2048 1, 6)] =
      ([Event.packet 0 [1, 1]], false) := by
    rw [runReads_cons_some _ 0 _ 6 [] [1, 1] e1, runReads_nil]
  have r2 : runReads (some fun b => b) 1 [(List.replicate 2048 2, 8)] =
      ([Event.packet 1 [2, 2, 2, 2]], false) := by
    rw [runReads_cons_some _ 1 _ 8 [] [2, 2, 2, 2] e2, runReads_nil]
  refine ⟨?_, by decide⟩
  rw [serverRun_cons_ok _ 0 _ _ _ r1, serverRun_cons_ok _ 1 _ _ _ r2, serverRun_nil]
  rfl

/-- Claim C2 (amended): `Start` contains no task spawn; the accept loop and
every per-connection read loop run on the single `Start` task, so every
trace is totally ordered by connection id — all events of an
earlier-accepted connection precede all events of a later-accepted one. -/
theorem C2_single_task_sequential_trace (decrypt : Option Codec) (c : Nat)
    (scripts : List ReadScript) :
    (serverRun decrypt c scripts).Pairwise (fun a b => connOf a ≤ connOf b) := by
  induction scripts generalizing c with
  | nil => simp [serverRun]
  | cons reads rest ih =>
    simp only [serverRun]
    have hpk : ∀ e ∈ (runReads decrypt c reads).1, connOf e = c := by
      intro e he
      obtain ⟨p, rfl⟩ := runReads_mem_packet decrypt c reads e he
      rfl
    split
    · refine List.Pairwise.cons (fun e he => ?_) (pairwiseOfMem ?_)
      · rw [show connOf (Event.connected c) = c from rfl, hpk e he]
      · intro a ha b hb
        rw [hpk a ha, hpk b hb]
    · have hrest : ∀ e ∈ Event.closedConn c :: serverRun decrypt (c + 1) rest,
          c ≤ connOf e := by
        intro e he
        rcases List.mem_cons.mp he with he | he
        · subst he; exact Nat.le_refl c
        · exact Nat.le_trans (Nat.le_succ c) (serverRun_connOf_ge decrypt rest (c + 1) e he)
      refine List.Pairwise.cons (fun e he => ?_) ?_
      · rcases List.mem_append.mp he with he | he
        · rw [show connOf (Event.connected c) = c from rfl, hpk e he]
        · exact hrest e he
      · rw [List.pairwise_append]
        refine ⟨pairwiseOfMem fun a ha b hb => by rw [hpk a ha, hpk b hb], ?_, ?_⟩
        · refine List.Pairwise.cons (fun e he => ?_) (ih (c + 1))
          exact Nat.le_trans (Nat.le_succ c) (serverRun_connOf_ge decrypt rest (c + 1) e he)
        · intro a ha b hb
          rw [hpk a ha]
          exact hrest b hb

/-- Claim C3 (code_bug evaluation): in the shutdown scenario with one live
connection, the WaitGroup operations performed by `Start` and `Stop` sum to
−1: the connection's coordinator unit is released twice (once by `Stop`,
once by the connection's own cleanup), so the counter must go negative —
which panics in Go — in every interleaving.  Moreover `Stop` itself never
removes a session from the registry. -/
theorem C3_stop_releases_units_twice :
    wgTotal stopScenarioWg = -1 ∧
    ∀ s : Server, (ServerStop s).connections = s.connections := by
  exact ⟨rfl, fun s => rfl⟩

/-- Claim C4 (code_bug evaluation): when `Accept` fails it returns a nil
connection, and the error branch calls `Close()` on that nil value — a
nil-pointer panic that kills the whole process — instead of the
log-and-continue outcome the claim describes. -/
theorem C4_accept_error_close_on_nil_panics :
    acceptIter (Except.error "accept tcp: too many open files") =
      AcceptOutcome.panicNilClose ∧
    AcceptOutcome.panicNilClose ≠ AcceptOutcome.loggedAndContinued := by
  exact ⟨rfl, by decide⟩

/-- Claim C5 (code_bug evaluation): `NewServer` with no codec options leaves
`encrypt` and `decrypt` nil, and the read loop then calls the nil decrypter
— a panic, not an identity transform — whereas the `Session` constructors
(session.go / part_000 / part_001) really do default both codecs to
identity. -/
theorem C5_server_default_codec_nil_not_identity :
    (NewServer []).encrypt = none ∧
    (NewServer []).decrypt = none ∧
    readLoopBody (NewServer []).decrypt (List.replicate readBufSize 7) 8 =
      FrameOutcome.panicNilCodec ∧
    callCodec (part001.NewSession []).encrypt [1, 2, 3] = some [1, 2, 3] ∧
    callCodec (part001.NewSession []).decrypt [1, 2, 3] = some [1, 2, 3] ∧
    callCodec (NewSession 0 none).encrypt [1, 2, 3] = some [1, 2, 3] ∧
    callCodec (NewSession 0 none).decrypt [1, 2, 3] = some [1, 2, 3] := by
  refine ⟨rfl, rfl, ?_, rfl, rfl, rfl, rfl⟩
  have hsl : goSlice (List.replicate readBufSize 7) headerLen 8 =
      some (List.replicate 4 7) :=
    goSlice_replicate readBufSize 7 headerLen 8 (by decide) (by decide)
  simp [readLoopBody, hsl, NewServer]

/-- The session used to separate the two `Write` revisions: its bound
encrypter is not the identity. -/
def shiftSession : Session :=
  { id := 0
    conn := some 0
    encrypt := some fun b => b.map (· + 1)
    decrypt := some fun b => b }

/-- Claim C6 (counterexample): `Session.Write` as written in src/session.go
lines 39–41 puts the raw payload on the wire even though a
payload-changing codec is bound — it writes the unencoded payload. -/
theorem C6_sessiongo_write_skips_codec :
    (sessiongo.SessionWrite shiftSession [1]).1 = [1] ∧
    callCodec shiftSession.encrypt [1] = some [2] ∧
    ([1] : Bytes) ≠ [2] := by
  exact ⟨rfl, rfl, by decide⟩

/-- Claim C6 (amended): in the src/unnamed/part_000 revision, `Write`
applies the bound encrypt codec to the payload and writes the encoded
bytes to the transport, mutating no session field. -/
theorem C6_part000_write_encodes_then_writes (s : Session) (f : Codec) (data : Bytes)
    (h : s.encrypt = some f) :
    (part000.SessionWrite s data).1 = some (f data) ∧
    (part000.SessionWrite s data).2 = s := by
  simp [part000.SessionWrite, callCodec, h]

/-- Witness for C6's amended theorem at a concrete session and payload. -/
theorem C6_part000_write_encodes_witness :
    (part000.SessionWrite shiftSession [1]).1 = some [2] ∧
    (part000.SessionWrite shiftSession [1]).2 = shiftSession :=
  C6_part000_write_encodes_then_writes shiftSession (fun b => b.map (· + 1)) [1] rfl

/-- Claim C7: session ids are assigned from the monotone counter: in any
run the ids of accepted sessions are pairwise strictly increasing in order
of acceptance, and no id is ever issued twice. -/
theorem C7_ids_strictly_increasing_never_reused (decrypt : Option Codec) (c : Nat)
    (scripts : List ReadScript) :
    (connectedIds (serverRun decrypt c scripts)).Pairwise (· < ·) ∧
    (connectedIds (serverRun decrypt c scripts)).Nodup := by
  refine ⟨serverRun_connectedIds_pairwise decrypt scripts c, ?_⟩
  exact (serverRun_connectedIds_pairwise decrypt scripts c).imp Nat.ne_of_lt

/-- Claim C8 (spec-modelled): `WriteToId` on an id absent from the registry
performs no wire write and returns no error — a silent no-op. -/
theorem C8_absent_id_silent_noop (registry : List (Nat × Session)) (id : Nat)
    (payload : Bytes) (h : registry.lookup id = none) :
    WriteToId registry id payload = ([], none) := by
  simp [WriteToId, h]

/-- Witness for C8 on the empty registry and a never-issued id. -/
theorem C8_absent_id_witness : WriteToId [] 5 [1, 2] = ([], none) :=
  C8_absent_id_silent_noop [] 5 [1, 2] rfl

/-- Claim C9: for every connection, `onConnected` fires exactly once when
the connection appears in the run, and every `onPacket` event of that
connection is preceded in the trace by its `onConnected` event. -/
theorem C9_connected_once_before_packets (decrypt : Option Codec) (c k : Nat)
    (scripts : List ReadScript) :
    (Event.connected k ∈ serverRun decrypt c scripts →
      countConnectedEv k (serverRun decrypt c scripts) = 1) ∧
    ∀ p : Bytes, Event.packet k p ∈ serverRun decrypt c scripts →
      [Event.connected k, Event.packet k p].Sublist (serverRun decrypt c scripts) := by
  constructor
  · intro hmem
    exact Nat.le_antisymm (serverRun_countConnected_le_one decrypt scripts c k)
      (countConnectedEv_pos hmem)
  · intro p hmem
    exact serverRun_packet_after_connected decrypt scripts c k p hmem

/-- Witness for C9 on a one-connection run delivering one packet. -/
theorem C9_connected_once_witness :
    countConnectedEv 0 (serverRun (some fun b => b) 0 [[(List.replicate 2048 3, 7)]]) = 1 ∧
    [Event.connected 0, Event.packet 0 [3, 3, 3]].Sublist
      (serverRun (some fun b => b) 0 [[(List.replicate 2048 3, 7)]]) := by
  have e3 : goSlice (List.replicate 2048 3) headerLen 7 = some [3, 3, 3] := by
    rw [goSlice_replicate 2048 3 headerLen 7 (by decide) (by decide)]
    rfl
  have r3 : runReads (some fun b => b) 0 [(List.replicate 2048 3, 7)] =
      ([Event.packet 0 [3, 3, 3]], false) := by
    rw [runReads_cons_some _ 0 _ 7 [] [3, 3, 3] e3, runReads_nil]
  have htr : serverRun (some fun b => b) 0 [[(List.replicate 2048 3, 7)]] =
      [Event.connected 0, Event.packet 0 [3, 3, 3], Event.closedConn 0] := by
    rw [serverRun_cons_ok _ 0 _ _ _ r3, serverRun_nil]
    rfl
  refine ⟨(C9_connected_once_before_packets (some fun b => b) 0 0 _).1 ?_,
    (C9_connected_once_before_packets (some fun b => b) 0 0 _).2 [3, 3, 3] ?_⟩
  · rw [htr]; decide
  · rw [htr]; decide

/-- Claim C10: `NewSession` initialises both codec fields to (non-nil)
identity functions; `SetEncrypter`/`SetDecrypter` each overwrite exactly
their own field; every other session operation leaves both fields
unchanged, so after any sequence of non-mutating operations a `Write`
never calls a nil codec. -/
theorem C10_codecs_initialized_and_only_setters_mutate (id : Nat) (conn : Option Nat)
    (ops : List SessOp) (s : Session) (e d : Option Codec) (data : Bytes) :
    (runSessOps (NewSession id conn) ops).encrypt.isSome = true ∧
    (runSessOps (NewSession id conn) ops).decrypt.isSome = true ∧
    (runSessOps s ops).encrypt = s.encrypt ∧
    (runSessOps s ops).decrypt = s.decrypt ∧
    (SetEncrypter s e).encrypt = e ∧
    (SetEncrypter s e).decrypt = s.decrypt ∧
    (SetDecrypter s d).decrypt = d ∧
    (SetDecrypter s d).encrypt = s.encrypt ∧
    (part000.SessionWrite (runSessOps (NewSession id conn) ops) data).1 ≠ none := by
  have hfix : ∀ (t : Session) (l : List SessOp), runSessOps t l = t := by
    intro t l
    induction l generalizing t with
    | nil => rfl
    | cons op rest ih =>
      cases op <;> simpa [runSessOps, sessionStep, part000.SessionWrite,
        part000.SessionWriteRaw, part000.SessionRead, SessionIdOp] using ih t
  refine ⟨?_, ?_, ?_, ?_, rfl, rfl, rfl, rfl, ?_⟩
  · rw [hfix]; rfl
  · rw [hfix]; rfl
  · rw [hfix]
  · rw [hfix]
  · rw [hfix]
    simp [part000.SessionWrite, callCodec, NewSession]
